import Mathlib

/-!
Verification of the deadline aggregation and classification engine of
`canvas_alerts.py`: a shallow embedding of the data model (assignments,
courses, persisted state), the `categorize` bucket classifier, the
four-source merge in `main`, the morning/evening decision logic, the
state-persistence structure of a run, and the paginated fetch with its
single-retry policy. Timestamps are modelled as epoch seconds (`Int`) in
the script's fixed timezone; `now.replace(hour=0, ...)` becomes the
midnight floor `now - now % 86400`.
-/

namespace CanvasAlerts

/-- Seconds in one day; `timedelta(days=1)` in the source. -/
def daySecs : Int := 86400

/-- The `submission` sub-record inlined on an assignment. -/
structure Submission where
  workflow_state : String
deriving DecidableEq

/-- An assignment record as the script consumes it: Canvas fields plus the
`_course_name` and `_peer_reviews` keys the script itself attaches.
`peer_reviews` is the boolean flag on the record; `peer_data` models the
attached `_peer_reviews` list (review ids). -/
structure Assignment where
  id : Nat
  name : String
  course_id : Option Nat
  due_at : Option Int
  lock_at : Option Int
  submission : Option Submission
  peer_reviews : Bool
  peer_data : Option (List Nat)
  course_name : String
deriving DecidableEq

/-- `effective_deadline`: earlier of due and lock when both present, else
whichever is present, else none. -/
def effective_deadline (a : Assignment) : Option Int :=
  match a.due_at, a.lock_at with
  | some due, some lock => some (min due lock)
  | some due, none => some due
  | none, some lock => some lock
  | none, none => none

/-- `is_submitted`: true iff a submission sub-record is present with
workflow state "submitted" or "graded". -/
def is_submitted (a : Assignment) : Bool :=
  match a.submission with
  | none => false
  | some sub => sub.workflow_state == "submitted" || sub.workflow_state == "graded"

/-- One entry of the persisted `seen_assignments` mapping. -/
structure SeenEntry where
  name : String
  course : String
  due_at : Option Int
  first_seen : Int
deriving DecidableEq

/-- The persisted state file: last run timestamp per mode and the
seen-assignments mapping (an insertion-ordered dict, modelled as an
association list keyed by the stringified assignment id). -/
structure AlertState where
  last_morning_run : Option Int
  last_evening_run : Option Int
  seen_assignments : List (String × SeenEntry)
deriving DecidableEq

/-- Keys of the persisted seen-assignments mapping. -/
def seenIds (s : AlertState) : List String := s.seen_assignments.map Prod.fst

/-- Midnight floor of `now`: `now.replace(hour=0, minute=0, second=0, microsecond=0)`. -/
def todayStart (now : Int) : Int := now - now % daySecs

/-- `today_start + timedelta(days=1)`. -/
def todayEnd (now : Int) : Int := todayStart now + daySecs

/-- `today_start + timedelta(days=2)`. -/
def tomorrowEnd (now : Int) : Int := todayStart now + 2 * daySecs

/-- `today_start + timedelta(days=4)`. -/
def soonEnd (now : Int) : Int := todayStart now + 4 * daySecs

/-- `last_run` as `categorize` computes it: the persisted last morning run,
defaulting to `now - timedelta(days=1)` when absent. -/
def lastRun (s : AlertState) (now : Int) : Int :=
  (s.last_morning_run).getD (now - daySecs)

/-- The six buckets `categorize` returns. -/
structure Buckets where
  missed : List Assignment
  today_past : List Assignment
  today : List Assignment
  tomorrow : List Assignment
  soon : List Assignment
  new : List Assignment
deriving DecidableEq

/-- The all-empty initial bucket dictionary. -/
def emptyBuckets : Buckets := ⟨[], [], [], [], [], []⟩

/-- New-item detection inside the loop of `categorize`: an identifier not
in the seen mapping is appended to the "new" bucket. -/
def bucketNew (seen : List String) (a : Assignment) (b : Buckets) : Buckets :=
  if toString a.id ∈ seen then b else { b with new := b.new ++ [a] }

/-- Time-bucket placement inside the loop of `categorize`. -/
def bucketTime (now ts te tme se dl : Int) (a : Assignment) (b1 : Buckets) : Buckets :=
  if ts ≤ dl ∧ dl < te then
    (if dl < now then { b1 with today_past := b1.today_past ++ [a] }
     else { b1 with today := b1.today ++ [a] })
  else if te ≤ dl ∧ dl < tme then { b1 with tomorrow := b1.tomorrow ++ [a] }
  else if tme ≤ dl ∧ dl < se then { b1 with soon := b1.soon ++ [a] }
  else b1

/-- The body of the per-assignment loop of `categorize`: skip items without
a deadline, classify "missed" and stop, skip remaining past-due items,
detect "new", then place in a time bucket. -/
def categorizeStep (now ts te tme se lr : Int) (seen : List String)
    (b : Buckets) (a : Assignment) : Buckets :=
  match effective_deadline a with
  | none => b
  | some dl =>
    if is_submitted a = false ∧ lr < dl ∧ dl ≤ now then
      { b with missed := b.missed ++ [a] }
    else if dl ≤ now then b
    else bucketTime now ts te tme se dl a (bucketNew seen a b)

/-- Sort key used for buckets: `effective_deadline(a) or now`. -/
def sortKey (now : Int) (a : Assignment) : Int := (effective_deadline a).getD now

/-- `list.sort(key=lambda a: effective_deadline(a) or now)`: a stable
ascending sort by deadline. -/
def sortBucket (now : Int) (l : List Assignment) : List Assignment :=
  l.insertionSort (fun a b => sortKey now a ≤ sortKey now b)

/-- `categorize(assignments, state, now)`: bucket assignments for the
morning digest. -/
def categorize (assignments : List Assignment) (state : AlertState) (now : Int) :
    Buckets :=
  let b := assignments.foldl
    (categorizeStep now (todayStart now) (todayEnd now) (tomorrowEnd now)
      (soonEnd now) (lastRun state now) (seenIds state)) emptyBuckets
  { missed := sortBucket now b.missed
    today_past := sortBucket now b.today_past
    today := sortBucket now b.today
    tomorrow := sortBucket now b.tomorrow
    soon := sortBucket now b.soon
    new := sortBucket now b.new }

/-! Characterization of each bucket as a filter over the input list. -/

/-- The condition under which an assignment lands in "missed". -/
def missedCond (lr now : Int) (a : Assignment) : Bool :=
  match effective_deadline a with
  | none => false
  | some dl => !is_submitted a && decide (lr < dl) && decide (dl ≤ now)

/-- The condition under which an assignment lands in "today". -/
def todayCond (now : Int) (a : Assignment) : Bool :=
  match effective_deadline a with
  | none => false
  | some dl => decide (now < dl) && decide (todayStart now ≤ dl) && decide (dl < todayEnd now)

/-- The condition under which an assignment lands in "tomorrow". -/
def tomorrowCond (now : Int) (a : Assignment) : Bool :=
  match effective_deadline a with
  | none => false
  | some dl => decide (now < dl) && decide (todayEnd now ≤ dl) && decide (dl < tomorrowEnd now)

/-- The condition under which an assignment lands in "soon". -/
def soonCond (now : Int) (a : Assignment) : Bool :=
  match effective_deadline a with
  | none => false
  | some dl => decide (now < dl) && decide (tomorrowEnd now ≤ dl) && decide (dl < soonEnd now)

/-- The condition under which an assignment lands in "new". -/
def newCond (now : Int) (seen : List String) (a : Assignment) : Bool :=
  match effective_deadline a with
  | none => false
  | some dl => decide (now < dl) && !(decide (toString a.id ∈ seen))

/-! The rest of the program model: courses, the four-source merge of
`main`, the two run modes, state persistence, and the paginated fetch. -/

/-- A course record with its enrollment window. -/
structure Course where
  id : Nat
  name : String
  course_code : Option String
  start_at : Option Int
  end_at : Option Int
deriving DecidableEq

/-- `course_name`: course code preferred, falling back to the full name. -/
def course_name (c : Course) : String := c.course_code.getD c.name

/-- The filter inside `fetch_active_courses`: drop courses that have not
started or have already ended. -/
def activeCourses (courses : List Course) (now : Int) : List Course :=
  courses.filter (fun c =>
    !(match c.start_at with | some s => decide (now < s) | none => false) &&
    !(match c.end_at with | some e => decide (e < now) | none => false))

/-- An announcement record (only the fields the filter consumes). -/
structure Announcement where
  id : Nat
  title : String
  posted_at : Int
deriving DecidableEq

/-- A to-do item: an optional inlined assignment plus its course id. -/
structure TodoItem where
  assignment : Option Assignment
  course_id : Option Nat
deriving DecidableEq

/-- A calendar event: an optional inlined assignment. -/
structure CalEvent where
  assignment : Option Assignment
deriving DecidableEq

/-- The run mode, morning or evening. -/
inductive Mode where
  | morning
  | evening
deriving DecidableEq

/-- `state.get(f"last_{mode}_run")`. -/
def modeLastRun (s : AlertState) : Mode → Option Int
  | .morning => s.last_morning_run
  | .evening => s.last_evening_run

/-- The outcomes of every network fetch a run performs, indexed the way the
script requests them; `.error` models a raised `RequestException`. -/
structure Env where
  coursesRes : Except Unit (List Course)
  upcomingRes : Nat → Except Unit (List Assignment)
  pastRes : Nat → Except Unit (List Assignment)
  peerRes : Nat → Nat → Except Unit (List Nat)
  annRes : Nat → Except Unit (List Announcement)
  todoRes : Except Unit (List TodoItem)
  calRes : Except Unit (List CalEvent)

/-- Keys of the `all_assignments` insertion-ordered dict. -/
def dictKeys (d : List (Nat × Assignment)) : List Nat := d.map Prod.fst

/-- `all_assignments[k] = v`: replace in place when the key exists,
append otherwise. -/
def dictInsert (d : List (Nat × Assignment)) (k : Nat) (v : Assignment) :
    List (Nat × Assignment) :=
  if k ∈ dictKeys d then d.map (fun p => if p.1 = k then (k, v) else p)
  else d ++ [(k, v)]

/-- `all_assignments.get(k)`. -/
def dictLookup (d : List (Nat × Assignment)) (k : Nat) : Option Assignment :=
  (d.find? (fun p => decide (p.1 = k))).map Prod.snd

/-- The course-listing loop body: tag each fetched assignment with the
course label and store it under its id. -/
def insertListings (cname : String) (d : List (Nat × Assignment))
    (items : List Assignment) : List (Nat × Assignment) :=
  items.foldl (fun d a => dictInsert d a.id { a with course_name := cname }) d

/-- The peer-review pass over `all_assignments` for one course: for records
flagged for peer review and belonging to this course, attach the fetched
reviews when non-empty; fetch failures are swallowed per assignment. -/
def enrichPeer (peer : Nat → Nat → Except Unit (List Nat)) (cid : Nat)
    (cname : String) (d : List (Nat × Assignment)) : List (Nat × Assignment) :=
  d.map (fun p =>
    if p.2.peer_reviews && (p.2.course_name == cname) then
      match peer cid p.1 with
      | .error _ => p
      | .ok [] => p
      | .ok rs => (p.1, { p.2 with peer_data := some rs })
    else p)

/-- Accumulator of the per-course loop of `main`. -/
structure CourseAcc where
  dict : List (Nat × Assignment)
  failed : List String
  anns : List (String × List Announcement)

/-- One iteration of the per-course loop: fetch both listing buckets, run
peer enrichment, fetch announcements; a failure at any step keeps the dict
mutations made so far and records the course label as failed. -/
def processCourse (env : Env) (state : AlertState) (mode : Mode) (now : Int)
    (acc : CourseAcc) (c : Course) : CourseAcc :=
  let cname := course_name c
  match env.upcomingRes c.id with
  | .error _ => { acc with failed := acc.failed ++ [cname] }
  | .ok ups =>
    let d1 := insertListings cname acc.dict ups
    match env.pastRes c.id with
    | .error _ => { dict := d1, failed := acc.failed ++ [cname], anns := acc.anns }
    | .ok ps =>
      let d2 := insertListings cname d1 ps
      let d3 := enrichPeer env.peerRes c.id cname d2
      match env.annRes c.id with
      | .error _ => { dict := d3, failed := acc.failed ++ [cname], anns := acc.anns }
      | .ok anns =>
        let cutoff := (modeLastRun state mode).getD (now - daySecs)
        let relevant := anns.filter (fun an => decide (cutoff < an.posted_at))
        { dict := d3, failed := acc.failed,
          anns := if relevant.isEmpty then acc.anns else acc.anns ++ [(cname, relevant)] }

/-- `course_map.get(cid, "Unknown")`. -/
def lookupCourseName (cm : List (Nat × String)) (cid : Option Nat) : String :=
  match cid with
  | none => "Unknown"
  | some i => ((cm.find? (fun p => decide (p.1 = i))).map Prod.snd).getD "Unknown"

/-- The to-do merge: an item's inlined assignment is added only when its
id is not already a key of the dict. -/
def mergeTodo (cm : List (Nat × String)) (d : List (Nat × Assignment))
    (items : List TodoItem) : List (Nat × Assignment) :=
  items.foldl (fun d item =>
    match item.assignment with
    | none => d
    | some a =>
      if a.id ∈ dictKeys d then d
      else dictInsert d a.id { a with course_name := lookupCourseName cm item.course_id }) d

/-- The calendar merge: an event's inlined assignment is added only when
its id is not already a key of the dict. -/
def mergeCalendar (cm : List (Nat × String)) (d : List (Nat × Assignment))
    (evs : List CalEvent) : List (Nat × Assignment) :=
  evs.foldl (fun d ev =>
    match ev.assignment with
    | none => d
    | some a =>
      if a.id ∈ dictKeys d then d
      else dictInsert d a.id { a with course_name := lookupCourseName cm a.course_id }) d

/-- The full four-source merge of `main`: per-course listings with peer
enrichment, then to-do items, then calendar events; to-do or calendar
fetch failures leave the dict as it was. -/
def mergedDict (env : Env) (state : AlertState) (mode : Mode) (now : Int)
    (courses : List Course) : List (Nat × Assignment) :=
  let cm := courses.map (fun c => (c.id, course_name c))
  let acc := courses.foldl (processCourse env state mode now) ⟨[], [], []⟩
  let d5 := match env.todoRes with
    | .error _ => acc.dict
    | .ok items => mergeTodo cm acc.dict items
  match env.calRes with
  | .error _ => d5
  | .ok evs => mergeCalendar cm d5 evs

/-- One iteration of the morning-run seen-assignments update: append an
entry only when the stringified identifier is not already a key. -/
def updateSeenStep (now : Int) (s : List (String × SeenEntry)) (a : Assignment) :
    List (String × SeenEntry) :=
  if toString a.id ∈ s.map Prod.fst then s
  else s ++ [(toString a.id,
    { name := a.name, course := a.course_name,
      due_at := effective_deadline a, first_seen := now })]

/-- The morning-run state update: record the run timestamp and append a
seen-assignments entry for every identifier not already present. -/
def updateSeen (seen : List (String × SeenEntry)) (assignments : List Assignment)
    (now : Int) : List (String × SeenEntry) :=
  assignments.foldl (updateSeenStep now) seen

/-- `seen_assignments.get(k)`. -/
def seenLookup (m : List (String × SeenEntry)) (k : String) : Option SeenEntry :=
  (m.find? (fun p => decide (p.1 = k))).map Prod.snd

/-- The evening filter: unsubmitted assignments with an effective deadline
inside tomorrow's calendar day, sorted ascending by deadline. -/
def tomorrowUnsubmitted (assignments : List Assignment) (now : Int) :
    List Assignment :=
  (assignments.filter (fun a =>
      !is_submitted a &&
      match effective_deadline a with
      | none => false
      | some dl =>
        decide (todayStart now + daySecs ≤ dl) &&
        decide (dl < todayStart now + 2 * daySecs))).insertionSort
    (fun a b => (effective_deadline a).getD 0 ≤ (effective_deadline b).getD 0)

/-- The notifications a run can deliver. -/
inductive EmailKind where
  | errorMail
  | morningDigest
  | eveningAlert
deriving DecidableEq

/-- The externally visible outcome of one run: the notifications sent and
the state writes performed, in order. -/
structure RunResult where
  emails : List EmailKind
  savedStates : List AlertState
deriving DecidableEq

/-- `main()`: on a course-enumeration failure, send an error notification
and return without saving state; otherwise merge, decide per mode, and
save the updated state exactly once at the end. -/
def main (env : Env) (state : AlertState) (mode : Mode) (now : Int) : RunResult :=
  match env.coursesRes with
  | .error _ => { emails := [.errorMail], savedStates := [] }
  | .ok raw =>
    let courses := activeCourses raw now
    let assignments := (mergedDict env state mode now courses).map Prod.snd
    match mode with
    | .morning =>
      let state1 := { state with
        last_morning_run := some now,
        seen_assignments := updateSeen state.seen_assignments assignments now }
      { emails := [.morningDigest], savedStates := [state1] }
    | .evening =>
      let items := tomorrowUnsubmitted assignments now
      { emails := if items.isEmpty then [] else [.eveningAlert],
        savedStates := [{ state with last_evening_run := some now }] }

/-- One page of an API response: the records and the `rel="next"` link. -/
structure Page where
  records : List Nat
  next : Option String
deriving DecidableEq

/-- What one page fetch did: how many attempts were made and whether the
fixed retry sleep happened. -/
structure FetchTrace where
  url : String
  attempts : Nat
  slept : Bool
deriving DecidableEq

/-- The `for attempt in range(2)` loop of `fetch_paginated`: try once, on
failure sleep and retry once, and on a second failure raise. The oracle
gives the outcome of each attempt at a url. -/
def tryPage (oracle : String → Nat → Except Unit Page) (url : String) :
    Except Unit Page × FetchTrace :=
  match oracle url 0 with
  | .ok p => (.ok p, ⟨url, 1, false⟩)
  | .error _ =>
    match oracle url 1 with
    | .ok p => (.ok p, ⟨url, 2, true⟩)
    | .error e => (.error e, ⟨url, 2, true⟩)

/-- `fetch_paginated`: follow next-page links, accumulating records and a
per-page trace; a page whose retry also fails propagates the failure. The
fuel bounds the pagination walk, which the script itself does not bound. -/
def fetch_paginated (oracle : String → Nat → Except Unit Page) :
    Nat → Option String → List Nat → List FetchTrace →
    Except Unit (List Nat) × List FetchTrace
  | _, none, acc, tr => (.ok acc, tr)
  | 0, some _, acc, tr => (.ok acc, tr)
  | fuel + 1, some url, acc, tr =>
    match tryPage oracle url with
    | (.error e, t) => (.error e, tr ++ [t])
    | (.ok p, t) => fetch_paginated oracle fuel p.next (acc ++ p.records) (tr ++ [t])

/-! Concrete inputs used by witnesses and counterexamples. `exNow` is noon
of epoch day zero, so the midnight floor is 0. -/

/-- Noon of epoch day zero. -/
def exNow : Int := 43200

/-- A submission sub-record in the "submitted" workflow state. -/
def exSub : Submission := ⟨"submitted"⟩

/-- Unsubmitted, due later today (13:53), previously unseen. -/
def exAsgFuture : Assignment :=
  ⟨7, "HW7", none, some 50000, none, none, false, none, "CS"⟩

/-- Unsubmitted, due earlier today (11:06), inside the last-run window. -/
def exAsgMissed : Assignment :=
  ⟨8, "HW8", none, some 40000, none, none, false, none, "CS"⟩

/-- Submitted, due earlier today (10:00). -/
def exAsgDone : Assignment :=
  ⟨9, "HW9", none, some 36000, none, some exSub, false, none, "CS"⟩

/-- State with a recorded morning run at midnight and nothing seen. -/
def exStateEmpty : AlertState := ⟨some 0, none, []⟩

/-- The seen-assignments entry for `exAsgFuture`. -/
def exEntry : SeenEntry := ⟨"HW7", "CS", some 50000, 0⟩

/-- State in which assignment id 7 has already been seen. -/
def exStateSeen : AlertState := ⟨some 0, none, [("7", exEntry)]⟩

/-- A fresh state with no recorded runs. -/
def exStateNil : AlertState := ⟨none, none, []⟩

/-- An environment whose course enumeration fails. -/
def exEnvErr : Env :=
  ⟨.error (), fun _ => .ok [], fun _ => .ok [], fun _ _ => .ok [],
   fun _ => .ok [], .ok [], .ok []⟩

/-- An environment with no courses and empty enrichment sources. -/
def exEnvOk : Env :=
  ⟨.ok [], fun _ => .ok [], fun _ => .ok [], fun _ _ => .ok [],
   fun _ => .ok [], .ok [], .ok []⟩

/-- A record with the same identifier as `exAsgFuture` but other fields
different, arriving from the to-do source. -/
def exAsgDup : Assignment :=
  ⟨7, "HW7-todo", some 3, some 60000, none, none, false, none, ""⟩

/-- A to-do item carrying `exAsgDup`. -/
def exTodoDup : TodoItem := ⟨some exAsgDup, none⟩

/-- A fetch oracle whose every attempt fails. -/
def exOracleFail : String → Nat → Except Unit Page := fun _ _ => .error ()

theorem categorizeStep_eq (now lr : Int) (seen : List String) (b : Buckets)
    (a : Assignment) :
    categorizeStep now (todayStart now) (todayEnd now) (tomorrowEnd now)
        (soonEnd now) lr seen b a =
      { missed := b.missed ++ (if missedCond lr now a then [a] else [])
        today_past := b.today_past
        today := b.today ++ (if todayCond now a then [a] else [])
        tomorrow := b.tomorrow ++ (if tomorrowCond now a then [a] else [])
        soon := b.soon ++ (if soonCond now a then [a] else [])
        new := b.new ++ (if newCond now seen a then [a] else []) } := by
  have hts : todayStart now ≤ now := by
    unfold todayStart daySecs; omega
  have hte : todayEnd now = todayStart now + 86400 := rfl
  have htme : tomorrowEnd now = todayStart now + 2 * 86400 := rfl
  have hse : soonEnd now = todayStart now + 4 * 86400 := rfl
  unfold categorizeStep
  cases h : effective_deadline a with
  | none => simp [missedCond, todayCond, tomorrowCond, soonCond, newCond, h]
  | some dl =>
    dsimp only
    by_cases h1 : is_submitted a = false ∧ lr < dl ∧ dl ≤ now
    · rw [if_pos h1]
      have hnf : ¬ now < dl := by omega
      have c1 : missedCond lr now a = true := by
        simp [missedCond, h, h1.1, h1.2.1, h1.2.2]
      have c2 : todayCond now a = false := by simp [todayCond, h, hnf]
      have c3 : tomorrowCond now a = false := by simp [tomorrowCond, h, hnf]
      have c4 : soonCond now a = false := by simp [soonCond, h, hnf]
      have c5 : newCond now seen a = false := by simp [newCond, h, hnf]
      simp [c1, c2, c3, c4, c5]
    · rw [if_neg h1]
      have c1 : missedCond lr now a = false := by
        rcases Bool.eq_false_or_eq_true (is_submitted a) with hs | hs
        · simp [missedCond, h, hs]
        · have hnl : ¬ (lr < dl ∧ dl ≤ now) := fun hl => h1 ⟨hs, hl.1, hl.2⟩
          by_cases h2 : lr < dl
          · have h3 : ¬ dl ≤ now := fun h3 => hnl ⟨h2, h3⟩
            simp [missedCond, h, h3]
          · simp [missedCond, h, h2]
      by_cases h2 : dl ≤ now
      · rw [if_pos h2]
        have hnf : ¬ now < dl := by omega
        have c2 : todayCond now a = false := by simp [todayCond, h, hnf]
        have c3 : tomorrowCond now a = false := by simp [tomorrowCond, h, hnf]
        have c4 : soonCond now a = false := by simp [soonCond, h, hnf]
        have c5 : newCond now seen a = false := by simp [newCond, h, hnf]
        simp [c1, c2, c3, c4, c5]
      · rw [if_neg h2]
        have hf : now < dl := by omega
        have c5 : newCond now seen a = (if toString a.id ∈ seen then false else true) := by
          by_cases h3 : toString a.id ∈ seen
          · simp [newCond, h, h3]
          · simp [newCond, h, hf, h3]
        unfold bucketTime bucketNew
        by_cases h4 : todayStart now ≤ dl ∧ dl < todayEnd now
        · rw [if_pos h4, if_neg (show ¬ dl < now by omega)]
          have hnt : ¬ dl < tomorrowEnd now ∨ ¬ todayEnd now ≤ dl := Or.inr (by omega)
          have c2 : todayCond now a = true := by simp [todayCond, h, hf, h4.1, h4.2]
          have c3 : tomorrowCond now a = false := by
            simp [tomorrowCond, h, show ¬ todayEnd now ≤ dl by omega]
          have c4 : soonCond now a = false := by
            simp [soonCond, h, show ¬ tomorrowEnd now ≤ dl by omega]
          by_cases h3 : toString a.id ∈ seen
          · rw [if_pos h3]; simp [c1, c2, c3, c4, c5, h3]
          · rw [if_neg h3]; simp [c1, c2, c3, c4, c5, h3]
        · rw [if_neg h4]
          have c2 : todayCond now a = false := by
            have : ¬ dl < todayEnd now := by omega
            simp [todayCond, h, this]
          by_cases h5 : todayEnd now ≤ dl ∧ dl < tomorrowEnd now
          · rw [if_pos h5]
            have c3 : tomorrowCond now a = true := by
              simp [tomorrowCond, h, hf, h5.1, h5.2]
            have c4 : soonCond now a = false := by
              simp [soonCond, h, show ¬ tomorrowEnd now ≤ dl by omega]
            by_cases h3 : toString a.id ∈ seen
            · rw [if_pos h3]; simp [c1, c2, c3, c4, c5, h3]
            · rw [if_neg h3]; simp [c1, c2, c3, c4, c5, h3]
          · rw [if_neg h5]
            have c3 : tomorrowCond now a = false := by
              have : ¬ (todayEnd now ≤ dl ∧ dl < tomorrowEnd now) := h5
              by_cases h6 : todayEnd now ≤ dl
              · simp [tomorrowCond, h, show ¬ dl < tomorrowEnd now by omega]
              · simp [tomorrowCond, h, h6]
            by_cases h6 : tomorrowEnd now ≤ dl ∧ dl < soonEnd now
            · rw [if_pos h6]
              have c4 : soonCond now a = true := by
                simp [soonCond, h, hf, h6.1, h6.2]
              by_cases h3 : toString a.id ∈ seen
              · rw [if_pos h3]; simp [c1, c2, c3, c4, c5, h3]
              · rw [if_neg h3]; simp [c1, c2, c3, c4, c5, h3]
            · rw [if_neg h6]
              have c4 : soonCond now a = false := by
                by_cases h7 : tomorrowEnd now ≤ dl
                · simp [soonCond, h, show ¬ dl < soonEnd now by omega]
                · simp [soonCond, h, h7]
              by_cases h3 : toString a.id ∈ seen
              · rw [if_pos h3]; simp [c1, c2, c3, c4, c5, h3]
              · rw [if_neg h3]; simp [c1, c2, c3, c4, c5, h3]

theorem foldl_categorizeStep (now lr : Int) (seen : List String)
    (l : List Assignment) (b : Buckets) :
    l.foldl (categorizeStep now (todayStart now) (todayEnd now) (tomorrowEnd now)
        (soonEnd now) lr seen) b =
      { missed := b.missed ++ l.filter (missedCond lr now)
        today_past := b.today_past
        today := b.today ++ l.filter (todayCond now)
        tomorrow := b.tomorrow ++ l.filter (tomorrowCond now)
        soon := b.soon ++ l.filter (soonCond now)
        new := b.new ++ l.filter (newCond now seen) } := by
  induction l generalizing b with
  | nil => simp
  | cons a l ih =>
    rw [List.foldl_cons, categorizeStep_eq, ih]
    simp only [List.filter_cons]
    split_ifs <;> simp

theorem categorize_eq (l : List Assignment) (s : AlertState) (now : Int) :
    categorize l s now =
      { missed := sortBucket now (l.filter (missedCond (lastRun s now) now))
        today_past := []
        today := sortBucket now (l.filter (todayCond now))
        tomorrow := sortBucket now (l.filter (tomorrowCond now))
        soon := sortBucket now (l.filter (soonCond now))
        new := sortBucket now (l.filter (newCond now (seenIds s))) } := by
  unfold categorize
  rw [foldl_categorizeStep]
  simp [emptyBuckets, sortBucket, List.insertionSort]

theorem mem_sortBucket (now : Int) (x : Assignment) (l : List Assignment) :
    x ∈ sortBucket now l ↔ x ∈ l :=
  (List.perm_insertionSort _ l).mem_iff

theorem mem_categorize_missed (l : List Assignment) (s : AlertState) (now : Int)
    (x : Assignment) :
    x ∈ (categorize l s now).missed ↔
      x ∈ l ∧ missedCond (lastRun s now) now x = true := by
  rw [categorize_eq]
  simp [mem_sortBucket, List.mem_filter]

theorem mem_categorize_today (l : List Assignment) (s : AlertState) (now : Int)
    (x : Assignment) :
    x ∈ (categorize l s now).today ↔ x ∈ l ∧ todayCond now x = true := by
  rw [categorize_eq]
  simp [mem_sortBucket, List.mem_filter]

theorem mem_categorize_tomorrow (l : List Assignment) (s : AlertState) (now : Int)
    (x : Assignment) :
    x ∈ (categorize l s now).tomorrow ↔ x ∈ l ∧ tomorrowCond now x = true := by
  rw [categorize_eq]
  simp [mem_sortBucket, List.mem_filter]

theorem mem_categorize_soon (l : List Assignment) (s : AlertState) (now : Int)
    (x : Assignment) :
    x ∈ (categorize l s now).soon ↔ x ∈ l ∧ soonCond now x = true := by
  rw [categorize_eq]
  simp [mem_sortBucket, List.mem_filter]

theorem mem_categorize_new (l : List Assignment) (s : AlertState) (now : Int)
    (x : Assignment) :
    x ∈ (categorize l s now).new ↔ x ∈ l ∧ newCond now (seenIds s) x = true := by
  rw [categorize_eq]
  simp [mem_sortBucket, List.mem_filter]

theorem categorize_today_past (l : List Assignment) (s : AlertState) (now : Int) :
    (categorize l s now).today_past = [] := by
  rw [categorize_eq]

theorem todayStart_le (now : Int) : todayStart now ≤ now := by
  unfold todayStart daySecs
  omega

/-- C1: an assignment with an effective deadline that was not classified
"missed", was not excluded by the past-due skip, and whose identifier is
not a key of the persisted seen mapping is placed in "new", in addition to
whichever time bucket it also qualifies for. -/
theorem claim_C1 (l : List Assignment) (s : AlertState) (now dl : Int)
    (a : Assignment) (ha : a ∈ l) (hdl : effective_deadline a = some dl)
    (hmissed : ¬ (is_submitted a = false ∧ lastRun s now < dl ∧ dl ≤ now))
    (hskip : ¬ dl ≤ now)
    (hunseen : toString a.id ∉ seenIds s) :
    a ∈ (categorize l s now).new
    ∧ (dl < todayEnd now → a ∈ (categorize l s now).today)
    ∧ (todayEnd now ≤ dl ∧ dl < tomorrowEnd now → a ∈ (categorize l s now).tomorrow)
    ∧ (tomorrowEnd now ≤ dl ∧ dl < soonEnd now → a ∈ (categorize l s now).soon) := by
  have hf : now < dl := by omega
  have hts : todayStart now ≤ now := todayStart_le now
  refine ⟨?_, ?_, ?_, ?_⟩
  · rw [mem_categorize_new]
    exact ⟨ha, by simp [newCond, hdl, hf, hunseen]⟩
  · intro h1
    rw [mem_categorize_today]
    exact ⟨ha, by simp [todayCond, hdl, hf, h1, show todayStart now ≤ dl by omega]⟩
  · rintro ⟨h1, h2⟩
    rw [mem_categorize_tomorrow]
    exact ⟨ha, by simp [tomorrowCond, hdl, hf, h1, h2]⟩
  · rintro ⟨h1, h2⟩
    rw [mem_categorize_soon]
    exact ⟨ha, by simp [soonCond, hdl, hf, h1, h2]⟩

/-- Witness for C1: a previously unseen assignment due later today lands in
both "new" and "today". -/
theorem claim_C1_witness :
    exAsgFuture ∈ (categorize [exAsgFuture] exStateEmpty exNow).new
    ∧ exAsgFuture ∈ (categorize [exAsgFuture] exStateEmpty exNow).today := by
  have h := claim_C1 [exAsgFuture] exStateEmpty exNow 50000 exAsgFuture
    (by decide) (by decide) (by decide) (by decide) (by decide)
  exact ⟨h.1, h.2.1 (by decide)⟩

/-- C2 (amended): the "today-past" bucket of `categorize` is always empty;
submitted assignments due earlier today, and unsubmitted assignments whose
deadline is at or before `last_run`, are excluded from every bucket by the
past-due skip. -/
theorem claim_C2 (l : List Assignment) (s : AlertState) (now : Int) :
    (categorize l s now).today_past = [] :=
  categorize_today_past l s now

/-- Counterexample to C2 as stated: a submitted assignment whose effective
deadline lies in `[today 00:00, now)` is not placed in "today-past". -/
theorem claim_C2_cex :
    is_submitted exAsgDone = true
    ∧ effective_deadline exAsgDone = some 36000
    ∧ todayStart exNow ≤ 36000 ∧ 36000 < exNow
    ∧ exAsgDone ∉ (categorize [exAsgDone] exStateEmpty exNow).today_past := by
  refine ⟨rfl, rfl, by decide, by decide, ?_⟩
  decide

/-- C3: an unsubmitted assignment whose effective deadline lies in
`(last_run, now]` — with `last_run` the persisted last morning run,
defaulting to now minus one day — is placed in "missed" and in no other
bucket. -/
theorem claim_C3 (l : List Assignment) (s : AlertState) (now dl : Int)
    (a : Assignment) (ha : a ∈ l) (hdl : effective_deadline a = some dl)
    (hsub : is_submitted a = false) (h1 : lastRun s now < dl) (h2 : dl ≤ now) :
    a ∈ (categorize l s now).missed
    ∧ a ∉ (categorize l s now).today_past
    ∧ a ∉ (categorize l s now).today
    ∧ a ∉ (categorize l s now).tomorrow
    ∧ a ∉ (categorize l s now).soon
    ∧ a ∉ (categorize l s now).new := by
  have hnf : ¬ now < dl := by omega
  refine ⟨?_, ?_, ?_, ?_, ?_, ?_⟩
  · rw [mem_categorize_missed]
    exact ⟨ha, by simp [missedCond, hdl, hsub, h1, h2]⟩
  · simp [categorize_today_past]
  · rw [mem_categorize_today]
    rintro ⟨-, hc⟩
    simp [todayCond, hdl, hnf] at hc
  · rw [mem_categorize_tomorrow]
    rintro ⟨-, hc⟩
    simp [tomorrowCond, hdl, hnf] at hc
  · rw [mem_categorize_soon]
    rintro ⟨-, hc⟩
    simp [soonCond, hdl, hnf] at hc
  · rw [mem_categorize_new]
    rintro ⟨-, hc⟩
    simp [newCond, hdl, hnf] at hc

/-- Witness for C3: an unsubmitted assignment due earlier today, after the
last run, is in "missed" and not in "new". -/
theorem claim_C3_witness :
    exAsgMissed ∈ (categorize [exAsgMissed] exStateEmpty exNow).missed
    ∧ exAsgMissed ∉ (categorize [exAsgMissed] exStateEmpty exNow).new := by
  have h := claim_C3 [exAsgMissed] exStateEmpty exNow 40000 exAsgMissed
    (by decide) (by decide) (by decide) (by decide) (by decide)
  exact ⟨h.1, h.2.2.2.2.2⟩

/-- C4: a submitted assignment whose effective deadline is at or before
now appears in no bucket at all. -/
theorem claim_C4 (l : List Assignment) (s : AlertState) (now dl : Int)
    (a : Assignment) (ha : a ∈ l) (hdl : effective_deadline a = some dl)
    (hsub : is_submitted a = true) (h2 : dl ≤ now) :
    a ∉ (categorize l s now).missed
    ∧ a ∉ (categorize l s now).today_past
    ∧ a ∉ (categorize l s now).today
    ∧ a ∉ (categorize l s now).tomorrow
    ∧ a ∉ (categorize l s now).soon
    ∧ a ∉ (categorize l s now).new := by
  have hnf : ¬ now < dl := by omega
  refine ⟨?_, ?_, ?_, ?_, ?_, ?_⟩
  · rw [mem_categorize_missed]
    rintro ⟨-, hc⟩
    simp [missedCond, hdl, hsub] at hc
  · simp [categorize_today_past]
  · rw [mem_categorize_today]
    rintro ⟨-, hc⟩
    simp [todayCond, hdl, hnf] at hc
  · rw [mem_categorize_tomorrow]
    rintro ⟨-, hc⟩
    simp [tomorrowCond, hdl, hnf] at hc
  · rw [mem_categorize_soon]
    rintro ⟨-, hc⟩
    simp [soonCond, hdl, hnf] at hc
  · rw [mem_categorize_new]
    rintro ⟨-, hc⟩
    simp [newCond, hdl, hnf] at hc

/-- Witness for C4: a submitted assignment due earlier today is in no
bucket. -/
theorem claim_C4_witness :
    exAsgDone ∉ (categorize [exAsgDone] exStateEmpty exNow).missed
    ∧ exAsgDone ∉ (categorize [exAsgDone] exStateEmpty exNow).new := by
  have h := claim_C4 [exAsgDone] exStateEmpty exNow 36000 exAsgDone
    (by decide) (by decide) (by decide) (by decide)
  exact ⟨h.1, h.2.2.2.2.2⟩

/-- C10: the five buckets "missed", "today_past", "today", "tomorrow" and
"soon" are pairwise disjoint; only "new" may overlap a time bucket. -/
theorem claim_C10 (l : List Assignment) (s : AlertState) (now : Int)
    (a : Assignment) :
    (a ∈ (categorize l s now).missed →
      a ∉ (categorize l s now).today_past ∧ a ∉ (categorize l s now).today
      ∧ a ∉ (categorize l s now).tomorrow ∧ a ∉ (categorize l s now).soon)
    ∧ (a ∈ (categorize l s now).today_past →
      a ∉ (categorize l s now).today ∧ a ∉ (categorize l s now).tomorrow
      ∧ a ∉ (categorize l s now).soon)
    ∧ (a ∈ (categorize l s now).today →
      a ∉ (categorize l s now).tomorrow ∧ a ∉ (categorize l s now).soon)
    ∧ (a ∈ (categorize l s now).tomorrow → a ∉ (categorize l s now).soon) := by
  have hte : todayEnd now = todayStart now + 86400 := rfl
  have htme : tomorrowEnd now = todayStart now + 2 * 86400 := rfl
  have hse : soonEnd now = todayStart now + 4 * 86400 := rfl
  cases heff : effective_deadline a with
  | none =>
    refine ⟨?_, ?_, ?_, ?_⟩ <;> intro hm
    · rw [mem_categorize_missed] at hm
      simp [missedCond, heff] at hm
    · rw [categorize_today_past] at hm
      simp at hm
    · rw [mem_categorize_today] at hm
      simp [todayCond, heff] at hm
    · rw [mem_categorize_tomorrow] at hm
      simp [tomorrowCond, heff] at hm
  | some dl =>
    refine ⟨?_, ?_, ?_, ?_⟩
    · intro hm
      rw [mem_categorize_missed] at hm
      obtain ⟨-, hc⟩ := hm
      simp [missedCond, heff] at hc
      refine ⟨?_, ?_, ?_, ?_⟩
      · simp [categorize_today_past]
      · rw [mem_categorize_today]
        rintro ⟨-, h2⟩
        simp [todayCond, heff] at h2
        omega
      · rw [mem_categorize_tomorrow]
        rintro ⟨-, h2⟩
        simp [tomorrowCond, heff] at h2
        omega
      · rw [mem_categorize_soon]
        rintro ⟨-, h2⟩
        simp [soonCond, heff] at h2
        omega
    · intro hm
      rw [categorize_today_past] at hm
      simp at hm
    · intro hm
      rw [mem_categorize_today] at hm
      obtain ⟨-, hc⟩ := hm
      simp [todayCond, heff] at hc
      constructor
      · rw [mem_categorize_tomorrow]
        rintro ⟨-, h2⟩
        simp [tomorrowCond, heff] at h2
        omega
      · rw [mem_categorize_soon]
        rintro ⟨-, h2⟩
        simp [soonCond, heff] at h2
        omega
    · intro hm
      rw [mem_categorize_tomorrow] at hm
      obtain ⟨-, hc⟩ := hm
      simp [tomorrowCond, heff] at hc
      rw [mem_categorize_soon]
      rintro ⟨-, h2⟩
      simp [soonCond, heff] at h2
      omega

/-- Witness for C10: a concrete "missed" assignment is absent from
"today". -/
theorem claim_C10_witness :
    exAsgMissed ∈ (categorize [exAsgMissed] exStateEmpty exNow).missed
    ∧ exAsgMissed ∉ (categorize [exAsgMissed] exStateEmpty exNow).today := by
  have hm : exAsgMissed ∈ (categorize [exAsgMissed] exStateEmpty exNow).missed := by
    decide
  exact ⟨hm, ((claim_C10 [exAsgMissed] exStateEmpty exNow exAsgMissed).1 hm).2.1⟩

theorem assoc_find_append {κ β : Type} [DecidableEq κ] (m rest : List (κ × β))
    (k : κ) (h : k ∈ m.map Prod.fst) :
    (m ++ rest).find? (fun p => decide (p.1 = k)) =
      m.find? (fun p => decide (p.1 = k)) := by
  obtain ⟨p, hp, hpk⟩ := List.mem_map.mp h
  have hsome : (m.find? (fun p => decide (p.1 = k))).isSome := by
    rw [List.find?_isSome]
    exact ⟨p, hp, by simp [hpk]⟩
  obtain ⟨v, hv⟩ := Option.isSome_iff_exists.mp hsome
  rw [List.find?_append, hv]
  rfl

theorem map_fst_update (d : List (Nat × Assignment)) (k : Nat) (v : Assignment) :
    (d.map (fun p => if p.1 = k then (k, v) else p)).map Prod.fst =
      d.map Prod.fst := by
  induction d with
  | nil => rfl
  | cons p d ih =>
    by_cases h : p.1 = k
    · simp [h, ih]
    · simp [h, ih]

theorem dictKeys_dictInsert (d : List (Nat × Assignment)) (k : Nat)
    (v : Assignment) :
    dictKeys (dictInsert d k v) =
      if k ∈ dictKeys d then dictKeys d else dictKeys d ++ [k] := by
  unfold dictInsert
  split_ifs with h
  · simpa [dictKeys] using map_fst_update d k v
  · simp [dictKeys]

theorem nodup_dictInsert (d : List (Nat × Assignment)) (k : Nat) (v : Assignment)
    (h : (dictKeys d).Nodup) : (dictKeys (dictInsert d k v)).Nodup := by
  rw [dictKeys_dictInsert]
  split_ifs with hk
  · exact h
  · simp [List.nodup_append, h, hk]

theorem dictInsert_of_not_mem (d : List (Nat × Assignment)) (k : Nat)
    (v : Assignment) (h : k ∉ dictKeys d) : dictInsert d k v = d ++ [(k, v)] := by
  unfold dictInsert
  rw [if_neg h]

theorem dictKeys_append (d rest : List (Nat × Assignment)) :
    dictKeys (d ++ rest) = dictKeys d ++ dictKeys rest := by
  simp [dictKeys]

theorem dictLookup_append_of_mem (d rest : List (Nat × Assignment)) (k : Nat)
    (h : k ∈ dictKeys d) : dictLookup (d ++ rest) k = dictLookup d k := by
  unfold dictLookup
  rw [assoc_find_append d rest k h]

theorem nodup_insertListings (cname : String) (items : List Assignment) :
    ∀ d : List (Nat × Assignment), (dictKeys d).Nodup →
      (dictKeys (insertListings cname d items)).Nodup := by
  induction items with
  | nil => intro d h; exact h
  | cons a items ih =>
    intro d h
    exact ih _ (nodup_dictInsert _ _ _ h)

theorem dictKeys_map_of_fst {f : Nat × Assignment → Nat × Assignment}
    (hf : ∀ p, (f p).1 = p.1) (d : List (Nat × Assignment)) :
    dictKeys (d.map f) = dictKeys d := by
  induction d with
  | nil => rfl
  | cons p d ih =>
    simp only [dictKeys, List.map_cons] at ih ⊢
    rw [ih, hf p]

theorem dictKeys_enrichPeer (peer : Nat → Nat → Except Unit (List Nat))
    (cid : Nat) (cname : String) (d : List (Nat × Assignment)) :
    dictKeys (enrichPeer peer cid cname d) = dictKeys d := by
  unfold enrichPeer
  apply dictKeys_map_of_fst
  intro p
  dsimp only
  split_ifs with h
  · cases hp : peer cid p.1 with
    | error e => rfl
    | ok rs =>
      cases rs with
      | nil => rfl
      | cons r rs => rfl
  · rfl

theorem nodup_processCourse (env : Env) (state : AlertState) (mode : Mode)
    (now : Int) (c : Course) (acc : CourseAcc)
    (h : (dictKeys acc.dict).Nodup) :
    (dictKeys (processCourse env state mode now acc c).dict).Nodup := by
  unfold processCourse
  cases env.upcomingRes c.id with
  | error e => exact h
  | ok ups =>
    cases env.pastRes c.id with
    | error e => exact nodup_insertListings _ _ _ h
    | ok ps =>
      have h2 : (dictKeys (insertListings (course_name c)
          (insertListings (course_name c) acc.dict ups) ps)).Nodup :=
        nodup_insertListings _ _ _ (nodup_insertListings _ _ _ h)
      cases env.annRes c.id with
      | error e =>
        dsimp only
        rw [dictKeys_enrichPeer]
        exact h2
      | ok anns =>
        dsimp only
        rw [dictKeys_enrichPeer]
        exact h2

theorem nodup_foldl_processCourse (env : Env) (state : AlertState) (mode : Mode)
    (now : Int) (courses : List Course) :
    ∀ acc : CourseAcc, (dictKeys acc.dict).Nodup →
      (dictKeys (courses.foldl (processCourse env state mode now) acc).dict).Nodup := by
  induction courses with
  | nil => intro acc h; exact h
  | cons c cs ih =>
    intro acc h
    exact ih _ (nodup_processCourse _ _ _ _ _ _ h)

theorem mergeTodo_cons (cm : List (Nat × String)) (d : List (Nat × Assignment))
    (item : TodoItem) (items : List TodoItem) :
    mergeTodo cm d (item :: items) =
      mergeTodo cm
        (match item.assignment with
          | none => d
          | some a =>
            if a.id ∈ dictKeys d then d
            else dictInsert d a.id
              { a with course_name := lookupCourseName cm item.course_id }) items := rfl

theorem mergeCalendar_cons (cm : List (Nat × String)) (d : List (Nat × Assignment))
    (ev : CalEvent) (evs : List CalEvent) :
    mergeCalendar cm d (ev :: evs) =
      mergeCalendar cm
        (match ev.assignment with
          | none => d
          | some a =>
            if a.id ∈ dictKeys d then d
            else dictInsert d a.id
              { a with course_name := lookupCourseName cm a.course_id }) evs := rfl

theorem nodup_mergeTodo (cm : List (Nat × String)) (items : List TodoItem) :
    ∀ d : List (Nat × Assignment), (dictKeys d).Nodup →
      (dictKeys (mergeTodo cm d items)).Nodup := by
  induction items with
  | nil => intro d h; exact h
  | cons item items ih =>
    intro d h
    rw [mergeTodo_cons]
    cases item.assignment with
    | none => exact ih d h
    | some a =>
      dsimp only
      by_cases hm : a.id ∈ dictKeys d
      · rw [if_pos hm]
        exact ih d h
      · rw [if_neg hm]
        exact ih _ (nodup_dictInsert _ _ _ h)

theorem nodup_mergeCalendar (cm : List (Nat × String)) (evs : List CalEvent) :
    ∀ d : List (Nat × Assignment), (dictKeys d).Nodup →
      (dictKeys (mergeCalendar cm d evs)).Nodup := by
  induction evs with
  | nil => intro d h; exact h
  | cons ev evs ih =>
    intro d h
    rw [mergeCalendar_cons]
    cases ev.assignment with
    | none => exact ih d h
    | some a =>
      dsimp only
      by_cases hm : a.id ∈ dictKeys d
      · rw [if_pos hm]
        exact ih d h
      · rw [if_neg hm]
        exact ih _ (nodup_dictInsert _ _ _ h)

theorem dictLookup_mergeTodo (cm : List (Nat × String)) (items : List TodoItem) :
    ∀ (d : List (Nat × Assignment)) (k : Nat), k ∈ dictKeys d →
      dictLookup (mergeTodo cm d items) k = dictLookup d k := by
  induction items with
  | nil => intro d k hk; rfl
  | cons item items ih =>
    intro d k hk
    rw [mergeTodo_cons]
    cases item.assignment with
    | none => exact ih d k hk
    | some a =>
      dsimp only
      by_cases hm : a.id ∈ dictKeys d
      · rw [if_pos hm]
        exact ih d k hk
      · rw [if_neg hm, dictInsert_of_not_mem d a.id _ hm]
        rw [ih _ k (by rw [dictKeys_append]; exact List.mem_append_left _ hk)]
        exact dictLookup_append_of_mem _ _ _ hk

theorem dictLookup_mergeCalendar (cm : List (Nat × String)) (evs : List CalEvent) :
    ∀ (d : List (Nat × Assignment)) (k : Nat), k ∈ dictKeys d →
      dictLookup (mergeCalendar cm d evs) k = dictLookup d k := by
  induction evs with
  | nil => intro d k hk; rfl
  | cons ev evs ih =>
    intro d k hk
    rw [mergeCalendar_cons]
    cases ev.assignment with
    | none => exact ih d k hk
    | some a =>
      dsimp only
      by_cases hm : a.id ∈ dictKeys d
      · rw [if_pos hm]
        exact ih d k hk
      · rw [if_neg hm, dictInsert_of_not_mem d a.id _ hm]
        rw [ih _ k (by rw [dictKeys_append]; exact List.mem_append_left _ hk)]
        exact dictLookup_append_of_mem _ _ _ hk

theorem nodup_mergedDict (env : Env) (state : AlertState) (mode : Mode)
    (now : Int) (courses : List Course) :
    (dictKeys (mergedDict env state mode now courses)).Nodup := by
  unfold mergedDict
  have h0 : (dictKeys (⟨[], [], []⟩ : CourseAcc).dict).Nodup := by
    simp [dictKeys]
  have h1 := nodup_foldl_processCourse env state mode now courses _ h0
  cases env.todoRes with
  | error e =>
    cases env.calRes with
    | error e2 => exact h1
    | ok evs => exact nodup_mergeCalendar _ _ _ h1
  | ok items =>
    have h2 := nodup_mergeTodo (courses.map fun c => (c.id, course_name c)) items _ h1
    cases env.calRes with
    | error e2 => exact h2
    | ok evs => exact nodup_mergeCalendar _ _ _ h2

theorem updateSeen_cons (seen : List (String × SeenEntry)) (b : Assignment)
    (l2 : List Assignment) (n2 : Int) :
    updateSeen seen (b :: l2) n2 = updateSeen (updateSeenStep n2 seen b) l2 n2 := rfl

theorem seenLookup_append_of_mem (m rest : List (String × SeenEntry)) (k : String)
    (h : k ∈ m.map Prod.fst) : seenLookup (m ++ rest) k = seenLookup m k := by
  unfold seenLookup
  rw [assoc_find_append m rest k h]

theorem seenLookup_updateSeen (n2 : Int) (l2 : List Assignment) :
    ∀ (seen : List (String × SeenEntry)) (k : String), k ∈ seen.map Prod.fst →
      seenLookup (updateSeen seen l2 n2) k = seenLookup seen k := by
  induction l2 with
  | nil => intro seen k hk; rfl
  | cons b l2 ih =>
    intro seen k hk
    rw [updateSeen_cons]
    unfold updateSeenStep
    by_cases hm : toString b.id ∈ seen.map Prod.fst
    · rw [if_pos hm]
      exact ih seen k hk
    · rw [if_neg hm]
      rw [ih _ k (by simp [hk])]
      exact seenLookup_append_of_mem _ _ _ hk

/-- C5: a fatal course-enumeration failure sends exactly the error
notification and writes no state; every non-fatal run, in either mode,
writes the state exactly once. -/
theorem claim_C5 (env : Env) (state : AlertState) (mode : Mode) (now : Int) :
    (∀ e : Unit, env.coursesRes = .error e →
      main env state mode now = { emails := [.errorMail], savedStates := [] })
    ∧ (∀ cs : List Course, env.coursesRes = .ok cs →
      (main env state mode now).savedStates.length = 1) := by
  constructor
  · intro e he
    unfold main
    rw [he]
  · intro cs hc
    unfold main
    rw [hc]
    cases mode <;> simp

/-- Witness for C5: a failing environment yields only the error mail and
no state write; an empty healthy environment yields one state write. -/
theorem claim_C5_witness :
    main exEnvErr exStateNil .morning 0 = ⟨[.errorMail], []⟩
    ∧ (main exEnvOk exStateNil .evening 0).savedStates.length = 1 :=
  ⟨(claim_C5 exEnvErr exStateNil .morning 0).1 () rfl,
   (claim_C5 exEnvOk exStateNil .evening 0).2 [] rfl⟩

/-- C6: in evening mode a reminder is sent iff the tomorrow-unsubmitted
filter is non-empty, an empty filter is a no-op, and the last-evening-run
timestamp is set to now in both cases. -/
theorem claim_C6 (env : Env) (state : AlertState) (now : Int) (raw : List Course)
    (hok : env.coursesRes = .ok raw) :
    ((main env state .evening now).emails ≠ [] ↔
      tomorrowUnsubmitted
        ((mergedDict env state .evening now (activeCourses raw now)).map Prod.snd)
        now ≠ [])
    ∧ ((main env state .evening now).emails = []
        ∨ (main env state .evening now).emails = [.eveningAlert])
    ∧ (main env state .evening now).savedStates =
        [{ state with last_evening_run := some now }] := by
  unfold main
  rw [hok]
  dsimp only
  by_cases hi : tomorrowUnsubmitted
      ((mergedDict env state .evening now (activeCourses raw now)).map Prod.snd)
      now = []
  · rw [if_pos (by simp [hi])]
    refine ⟨?_, Or.inl rfl, rfl⟩
    simp [hi]
  · rw [if_neg (by simp [List.isEmpty_iff, hi])]
    refine ⟨?_, Or.inr rfl, rfl⟩
    constructor
    · intro _
      exact hi
    · intro _
      simp

/-- Witness for C6: with no assignments the evening run sends nothing and
still records the evening timestamp. -/
theorem claim_C6_witness :
    (main exEnvOk exStateNil .evening 5).emails = []
    ∧ (main exEnvOk exStateNil .evening 5).savedStates =
        [⟨none, some 5, []⟩] := by
  have h := claim_C6 exEnvOk exStateNil 5 [] rfl
  refine ⟨?_, ?_⟩
  · by_contra hne
    exact h.1.mp hne rfl
  · exact h.2.2

/-- C7: the merged collection has pairwise distinct identifiers, peer
enrichment never changes the key set, and the to-do and calendar merges
never replace an entry whose identifier is already present. -/
theorem claim_C7 (env : Env) (state : AlertState) (mode : Mode) (now : Int)
    (courses : List Course) :
    (dictKeys (mergedDict env state mode now courses)).Nodup
    ∧ (∀ (d : List (Nat × Assignment)) (cid : Nat) (cname : String),
        dictKeys (enrichPeer env.peerRes cid cname d) = dictKeys d)
    ∧ (∀ (cm : List (Nat × String)) (d : List (Nat × Assignment))
        (items : List TodoItem) (k : Nat), k ∈ dictKeys d →
        dictLookup (mergeTodo cm d items) k = dictLookup d k)
    ∧ (∀ (cm : List (Nat × String)) (d : List (Nat × Assignment))
        (evs : List CalEvent) (k : Nat), k ∈ dictKeys d →
        dictLookup (mergeCalendar cm d evs) k = dictLookup d k) :=
  ⟨nodup_mergedDict env state mode now courses,
   fun d cid cname => dictKeys_enrichPeer env.peerRes cid cname d,
   fun cm d items k hk => dictLookup_mergeTodo cm items d k hk,
   fun cm d evs k hk => dictLookup_mergeCalendar cm evs d k hk⟩

/-- Witness for C7: merging a to-do record whose identifier is already
present leaves the stored record unchanged. -/
theorem claim_C7_witness :
    (dictKeys (mergedDict exEnvOk exStateNil .morning 0 [])).Nodup
    ∧ dictLookup (mergeTodo [] [(7, exAsgFuture)] [exTodoDup]) 7 =
        dictLookup [(7, exAsgFuture)] 7 := by
  have h := claim_C7 exEnvOk exStateNil .morning 0 []
  exact ⟨h.1, h.2.2.1 [] [(7, exAsgFuture)] [exTodoDup] 7 (by decide)⟩

/-- C8: an identifier already in the seen mapping never enters "new",
whatever its deadline, and the morning seen-assignments update never
removes or overwrites an existing entry. -/
theorem claim_C8 (l : List Assignment) (s : AlertState) (now : Int)
    (a : Assignment) (hseen : toString a.id ∈ seenIds s) :
    a ∉ (categorize l s now).new
    ∧ ∀ (seen : List (String × SeenEntry)) (l2 : List Assignment) (n2 : Int)
        (k : String), k ∈ seen.map Prod.fst →
        seenLookup (updateSeen seen l2 n2) k = seenLookup seen k := by
  constructor
  · rw [mem_categorize_new]
    rintro ⟨-, hc⟩
    cases heff : effective_deadline a with
    | none => simp [newCond, heff] at hc
    | some dl => simp [newCond, heff, hseen] at hc
  · intro seen l2 n2 k hk
    exact seenLookup_updateSeen n2 l2 seen k hk

/-- Witness for C8: a seen assignment due later today stays out of "new",
and re-observing its identifier keeps the original entry. -/
theorem claim_C8_witness :
    exAsgFuture ∉ (categorize [exAsgFuture] exStateSeen exNow).new
    ∧ seenLookup (updateSeen [("7", exEntry)] [exAsgDup] 99) "7" =
        seenLookup [("7", exEntry)] "7" := by
  have h := claim_C8 [exAsgFuture] exStateSeen exNow exAsgFuture (by decide)
  exact ⟨h.1, h.2 [("7", exEntry)] [exAsgDup] 99 "7" (by decide)⟩

theorem fetch_paginated_succ (oracle : String → Nat → Except Unit Page)
    (fuel : Nat) (url : String) (acc : List Nat) (tr : List FetchTrace) :
    fetch_paginated oracle (fuel + 1) (some url) acc tr =
      match tryPage oracle url with
      | (.error e, t) => (.error e, tr ++ [t])
      | (.ok p, t) =>
        fetch_paginated oracle fuel p.next (acc ++ p.records) (tr ++ [t]) := rfl

theorem fetch_paginated_spec (oracle : String → Nat → Except Unit Page) :
    ∀ (fuel : Nat) (u : Option String) (acc : List Nat) (tr : List FetchTrace),
      ∀ t ∈ (fetch_paginated oracle fuel u acc tr).2,
        t ∈ tr ∨
        (t.attempts ≤ 2
          ∧ (oracle t.url 0 = .error () → t.attempts = 2 ∧ t.slept = true)
          ∧ (oracle t.url 0 = .error () → oracle t.url 1 = .error () →
              (fetch_paginated oracle fuel u acc tr).1 = .error ())) := by
  intro fuel
  induction fuel with
  | zero =>
    intro u acc tr t ht
    cases u with
    | none => exact Or.inl ht
    | some url => exact Or.inl ht
  | succ fuel ih =>
    intro u acc tr t ht
    cases u with
    | none => exact Or.inl ht
    | some url =>
      rw [fetch_paginated_succ] at ht ⊢
      revert ht
      rcases hp : tryPage oracle url with ⟨res, t0⟩
      cases res with
      | error e =>
        intro ht
        dsimp only at ht ⊢
        rcases List.mem_append.mp ht with h | h
        · exact Or.inl h
        · have ht0 : t = t0 := by simpa using h
          subst ht0
          right
          unfold tryPage at hp
          cases o0 : oracle url 0 with
          | ok q =>
            rw [o0] at hp
            simp at hp
          | error e0 =>
            rw [o0] at hp
            cases o1 : oracle url 1 with
            | ok q =>
              rw [o1] at hp
              simp at hp
            | error e1 =>
              rw [o1] at hp
              injection hp with h1 h2
              subst h2
              exact ⟨by simp, fun _ => ⟨rfl, rfl⟩, fun _ _ => rfl⟩
      | ok p =>
        intro ht
        dsimp only at ht ⊢
        rcases ih p.next (acc ++ p.records) (tr ++ [t0]) t ht with h | h
        · rcases List.mem_append.mp h with h2 | h2
          · exact Or.inl h2
          · have ht0 : t = t0 := by simpa using h2
            subst ht0
            right
            unfold tryPage at hp
            cases o0 : oracle url 0 with
            | ok q =>
              rw [o0] at hp
              injection hp with h1 h2
              subst h2
              refine ⟨by simp, ?_, ?_⟩
              · intro he
                dsimp only at he
                rw [o0] at he
                simp at he
              · intro he
                dsimp only at he
                rw [o0] at he
                simp at he
            | error e0 =>
              rw [o0] at hp
              cases o1 : oracle url 1 with
              | ok q =>
                rw [o1] at hp
                injection hp with h1 h2
                subst h2
                refine ⟨by simp, fun _ => ⟨rfl, rfl⟩, ?_⟩
                intro _ he
                dsimp only at he
                rw [o1] at he
                simp at he
              | error e1 =>
                rw [o1] at hp
                simp at hp
        · exact Or.inr ⟨h.1, h.2.1, h.2.2⟩

/-- C9: every page fetched is attempted at most twice; a first failure is
followed by the fixed sleep and exactly one retry; a second failure is
propagated to the caller. -/
theorem claim_C9 (oracle : String → Nat → Except Unit Page) (fuel : Nat)
    (url : String) :
    ∀ t ∈ (fetch_paginated oracle fuel (some url) [] []).2,
      t.attempts ≤ 2
      ∧ (oracle t.url 0 = .error () → t.attempts = 2 ∧ t.slept = true)
      ∧ (oracle t.url 0 = .error () → oracle t.url 1 = .error () →
          (fetch_paginated oracle fuel (some url) [] []).1 = .error ()) := by
  intro t ht
  rcases fetch_paginated_spec oracle fuel (some url) [] [] t ht with h | h
  · simp at h
  · exact h

/-- Witness for C9: when every attempt at the first page fails, the trace
records two attempts with the retry sleep and the failure propagates. -/
theorem claim_C9_witness :
    (⟨"u", 2, true⟩ : FetchTrace) ∈
      (fetch_paginated exOracleFail 5 (some "u") [] []).2
    ∧ (fetch_paginated exOracleFail 5 (some "u") [] []).1 = .error () := by
  have hmem : (⟨"u", 2, true⟩ : FetchTrace) ∈
      (fetch_paginated exOracleFail 5 (some "u") [] []).2 := by decide
  exact ⟨hmem, (claim_C9 exOracleFail 5 "u" _ hmem).2.2 rfl rfl⟩

end CanvasAlerts
